import Mathlib

/-!
Formal model of the local cache and synchronization layer of the
AB Property Inspections application.

The development shallowly embeds:

* the IndexedDB-backed `PhotoCache` from `src/lib/photo-cache.ts`
  (`get`, `set`, `delete`, `deleteInspection`, `clear`, `batchGet`,
  `getStats`, and the private `cleanOldest` eviction pass);
* the batch fetch orchestrator `batchFetchPhotoData` and the
  optimistic mutation hooks from the database-hooks module
  (`useUpdateInspectionItem`, `useUpdatePhotoCaption`, `useDeletePhoto`,
  `useUploadPhoto`, `useDeletePhoto`'s remote write);
* the debounced text-edit handler `handleTextUpdate` from
  `src/pages/inspection-edit-page.tsx`.

The cache store is modelled as a list of entries kept in the iteration
order of the IndexedDB `timestamp` index (ascending `timestamp`), which is
the order the eviction cursor of `cleanOldest` walks.  Timestamps are
natural numbers (milliseconds, `Date.now()`); payload sizes are the UTF-8
byte size of the data-url string, matching `new Blob([dataUrl]).size`.
-/

namespace Spec2Proof

/-- `MAX_CACHE_SIZE_MB * 1024 * 1024` from photo-cache.ts (100 MB). -/
def MAX_CACHE_SIZE_BYTES : Nat := 100 * 1024 * 1024

/-- `CACHE_EXPIRY_DAYS` (7 days) expressed in milliseconds; the source
compares `ageMs / (1000*60*60*24) > CACHE_EXPIRY_DAYS`, which on integer
millisecond ages is equivalent to `ageMs > CACHE_EXPIRY_MS`. -/
def CACHE_EXPIRY_MS : Nat := 7 * 24 * 60 * 60 * 1000

/-- The `CachedPhoto` record stored in the IndexedDB object store. -/
structure CachedPhoto where
  key : String
  dataUrl : String
  timestamp : Nat
  sizeBytes : Nat
deriving DecidableEq, Repr

@[simp] theorem CachedPhoto.key_mk (k d : String) (t b : Nat) :
    (CachedPhoto.mk k d t b).key = k := rfl

@[simp] theorem CachedPhoto.dataUrl_mk (k d : String) (t b : Nat) :
    (CachedPhoto.mk k d t b).dataUrl = d := rfl

@[simp] theorem CachedPhoto.timestamp_mk (k d : String) (t b : Nat) :
    (CachedPhoto.mk k d t b).timestamp = t := rfl

@[simp] theorem CachedPhoto.sizeBytes_mk (k d : String) (t b : Nat) :
    (CachedPhoto.mk k d t b).sizeBytes = b := rfl

/-- The composite key `inspectionId:photoId`. -/
def mkKey (inspectionId photoId : String) : String :=
  inspectionId ++ ":" ++ photoId

/-- Sum of `sizeBytes` over the live entries (the reduce in
`getTotalSize`). -/
def totalSize (s : List CachedPhoto) : Nat :=
  (s.map (·.sizeBytes)).sum

/-- The expiry test performed by `get` and `batchGet`. -/
def isExpired (e : CachedPhoto) (now : Nat) : Bool :=
  CACHE_EXPIRY_MS < now - e.timestamp

namespace PhotoCache

/-- `cleanOldest(neededBytes)`: walk the `timestamp` index cursor
(ascending) and delete entries while `freedBytes < neededBytes`; stop as
soon as enough bytes are freed or the store is exhausted.  The first
argument is `neededBytes`, the second the accumulated `freedBytes`. -/
def cleanOldest (neededBytes : Nat) : Nat → List CachedPhoto → List CachedPhoto
  | _, [] => []
  | freed, e :: rest =>
    if freed < neededBytes then cleanOldest neededBytes (freed + e.sizeBytes) rest
    else e :: rest

/-- `PhotoCache.set`: compute the payload size, run the eviction pass when
`currentSize + sizeBytes > maxSizeBytes`, then `put` the entry (replacing
any entry with the same key) with `timestamp = now`.  The new entry sits
at the young end of the timestamp order. -/
def set (s : List CachedPhoto) (inspectionId photoId dataUrl : String) (now : Nat) :
    List CachedPhoto :=
  let key := mkKey inspectionId photoId
  let sizeBytes := dataUrl.utf8ByteSize
  let currentSize := totalSize s
  let s1 := if MAX_CACHE_SIZE_BYTES < currentSize + sizeBytes
    then cleanOldest sizeBytes 0 s else s
  s1.filter (fun e => e.key != key) ++ [⟨key, dataUrl, now, sizeBytes⟩]

/-- `PhotoCache.delete`: remove the entry with the composite key (a no-op
on an absent key). -/
def delete (s : List CachedPhoto) (inspectionId photoId : String) : List CachedPhoto :=
  s.filter (fun e => e.key != mkKey inspectionId photoId)

/-- `PhotoCache.get`: a miss when absent; an expired entry is deleted and
reported as a miss; otherwise a hit returning the stored data url.  The
first component is the returned value, the second the store afterwards. -/
def get (s : List CachedPhoto) (inspectionId photoId : String) (now : Nat) :
    Option String × List CachedPhoto :=
  match s.find? (fun e => e.key == mkKey inspectionId photoId) with
  | none => (none, s)
  | some e =>
    if isExpired e now then (none, delete s inspectionId photoId)
    else (some e.dataUrl, s)

/-- `PhotoCache.deleteInspection`: cursor over all entries deleting those
whose key starts with `inspectionId:`. -/
def deleteInspection (s : List CachedPhoto) (inspectionId : String) : List CachedPhoto :=
  s.filter (fun e => !(e.key.startsWith (inspectionId ++ ":")))

/-- `PhotoCache.clear`: clear the object store. -/
def clear (_s : List CachedPhoto) : List CachedPhoto := []

/-- `PhotoCache.batchGet`: per-key `get` requests aggregated into a map of
hits keyed by `photoId`; expired entries are skipped (not deleted), and
absent keys are silent misses. -/
def batchGet (s : List CachedPhoto) (inspectionId : String) (photoIds : List String)
    (now : Nat) : List (String × String) :=
  photoIds.filterMap fun pid =>
    match s.find? (fun e => e.key == mkKey inspectionId pid) with
    | none => none
    | some e => if isExpired e now then none else some (pid, e.dataUrl)

/-- `PhotoCache.getStats`: `(count, sizeBytes)` (the derived `sizeMB`
float is not modelled). -/
def getStats (s : List CachedPhoto) : Nat × Nat :=
  (s.length, totalSize s)

end PhotoCache

/-- The cache states reachable from an empty store by the public cache
operations.  The side condition on `set` records that `Date.now()` is
monotone: the write time is at least every live timestamp. -/
inductive Reach : List CachedPhoto → Prop where
  | empty : Reach []
  | set (s : List CachedPhoto) (iid pid v : String) (now : Nat) (hs : Reach s)
      (hm : ∀ e ∈ s, e.timestamp ≤ now) : Reach (PhotoCache.set s iid pid v now)
  | get (s : List CachedPhoto) (iid pid : String) (now : Nat) (hs : Reach s) :
      Reach (PhotoCache.get s iid pid now).2
  | del (s : List CachedPhoto) (iid pid : String) (hs : Reach s) :
      Reach (PhotoCache.delete s iid pid)
  | delInspection (s : List CachedPhoto) (iid : String) (hs : Reach s) :
      Reach (PhotoCache.deleteInspection s iid)
  | clear (s : List CachedPhoto) (hs : Reach s) :
      Reach (PhotoCache.clear s)

/-- An entry larger than the whole capacity budget. -/
def oversized (e : CachedPhoto) : Bool :=
  MAX_CACHE_SIZE_BYTES < e.sizeBytes

/-- Size part of the reachability invariant: either the byte budget is
respected, or the store holds exactly one oversized entry and every other
entry is empty (zero bytes). -/
def SizeInv (s : List CachedPhoto) : Prop :=
  totalSize s ≤ MAX_CACHE_SIZE_BYTES ∨
    ((∀ e ∈ s, e.sizeBytes = 0 ∨ MAX_CACHE_SIZE_BYTES < e.sizeBytes) ∧
      s.countP oversized = 1)

/-- Order part of the invariant: the store list is sorted by `timestamp`
(the iteration order of the IndexedDB timestamp index). -/
def TimeSorted (s : List CachedPhoto) : Prop :=
  List.Pairwise (fun a b => a.timestamp ≤ b.timestamp) s

def CacheInv (s : List CachedPhoto) : Prop :=
  SizeInv s ∧ TimeSorted s

/-! Basic arithmetic lemmas about `totalSize`. -/

theorem totalSize_nil : totalSize [] = 0 := rfl

theorem totalSize_cons (e : CachedPhoto) (s : List CachedPhoto) :
    totalSize (e :: s) = e.sizeBytes + totalSize s := by
  simp [totalSize]

theorem totalSize_append (a b : List CachedPhoto) :
    totalSize (a ++ b) = totalSize a + totalSize b := by
  simp [totalSize]

theorem totalSize_take_add_drop (s : List CachedPhoto) (k : Nat) :
    totalSize (s.take k) + totalSize (s.drop k) = totalSize s := by
  rw [← totalSize_append, List.take_append_drop]

theorem totalSize_filter_le (p : CachedPhoto → Bool) (s : List CachedPhoto) :
    totalSize (s.filter p) ≤ totalSize s := by
  induction s with
  | nil => simp
  | cons e rest ih =>
    by_cases h : p e
    · simp only [List.filter_cons, h, if_pos, totalSize_cons]
      omega
    · simp only [List.filter_cons, h, Bool.false_eq_true, if_neg, not_false_iff,
        totalSize_cons]
      omega

theorem mem_of_totalSize_pos (s : List CachedPhoto) (h : 0 < totalSize s) :
    ∃ e ∈ s, 0 < e.sizeBytes := by
  induction s with
  | nil => simp [totalSize] at h
  | cons e rest ih =>
    rw [totalSize_cons] at h
    rcases Nat.eq_zero_or_pos e.sizeBytes with he | he
    · rw [he, Nat.zero_add] at h
      obtain ⟨x, hx, hxp⟩ := ih h
      exact ⟨x, List.mem_cons_of_mem _ hx, hxp⟩
    · exact ⟨e, List.mem_cons_self .., he⟩

theorem le_totalSize_of_mem {e : CachedPhoto} {s : List CachedPhoto} (h : e ∈ s) :
    e.sizeBytes ≤ totalSize s := by
  induction s with
  | nil => cases h
  | cons a rest ih =>
    rw [totalSize_cons]
    rcases List.mem_cons.mp h with rfl | h'
    · omega
    · have := ih h'
      omega

theorem totalSize_eq_zero_of_all_zero {s : List CachedPhoto}
    (h : ∀ e ∈ s, e.sizeBytes = 0) : totalSize s = 0 := by
  induction s with
  | nil => rfl
  | cons a rest ih =>
    rw [totalSize_cons, h a (List.mem_cons_self ..), Nat.zero_add]
    exact ih fun e he => h e (List.mem_cons_of_mem _ he)

/-! Structure of the eviction pass: `cleanOldest` always removes a prefix
of the timestamp-ordered store, it removes an entry only while the bytes
freed so far are still short of the needed bytes, and it stops as soon as
enough bytes are freed or the store is exhausted. -/

theorem cleanOldest_spec (neededBytes : Nat) (s : List CachedPhoto) (freed : Nat) :
    ∃ k, PhotoCache.cleanOldest neededBytes freed s = s.drop k ∧
      (∀ j, j < k → freed + totalSize (s.take j) < neededBytes) ∧
      (s.drop k = [] ∨ neededBytes ≤ freed + totalSize (s.take k)) := by
  induction s generalizing freed with
  | nil => exact ⟨0, rfl, by omega, Or.inl rfl⟩
  | cons e rest ih =>
    by_cases hf : freed < neededBytes
    · obtain ⟨k, hk, hmin, hstop⟩ := ih (freed + e.sizeBytes)
      refine ⟨k + 1, ?_, ?_, ?_⟩
      · simpa [PhotoCache.cleanOldest, hf] using hk
      · intro j hj
        cases j with
        | zero => simpa [totalSize] using hf
        | succ j' =>
          have := hmin j' (by omega)
          simpa [List.take_succ_cons, totalSize_cons, Nat.add_assoc] using this
      · rcases hstop with h | h
        · exact Or.inl (by simpa using h)
        · exact Or.inr (by simpa [List.take_succ_cons, totalSize_cons, Nat.add_assoc] using h)
    · refine ⟨0, ?_, by omega, Or.inr ?_⟩
      · simp [PhotoCache.cleanOldest, hf]
      · simpa [totalSize] using Nat.le_of_not_lt hf

theorem countP_filter_le (p q : CachedPhoto → Bool) (s : List CachedPhoto) :
    (s.filter q).countP p ≤ s.countP p := by
  induction s with
  | nil => simp
  | cons a rest ih =>
    by_cases hq : q a <;> by_cases hp : p a <;>
      simp [List.filter_cons, List.countP_cons, hq, hp] <;> omega

/-- The size invariant survives any filtering removal (`delete`,
`deleteInspection`, expiry deletion inside `get`). -/
theorem sizeInv_filter (s : List CachedPhoto) (p : CachedPhoto → Bool)
    (h : SizeInv s) : SizeInv (s.filter p) := by
  rcases h with hT | ⟨hz, hc⟩
  · exact Or.inl (le_trans (totalSize_filter_le p s) hT)
  · have hz' : ∀ e ∈ s.filter p, e.sizeBytes = 0 ∨ MAX_CACHE_SIZE_BYTES < e.sizeBytes :=
      fun e he => hz e (List.mem_of_mem_filter he)
    have hle : (s.filter p).countP oversized ≤ 1 := hc ▸ countP_filter_le oversized p s
    rcases Nat.lt_or_ge ((s.filter p).countP oversized) 1 with h1 | h1
    · have h0 : (s.filter p).countP oversized = 0 := by omega
      have hall : ∀ e ∈ s.filter p, e.sizeBytes = 0 := by
        intro e he
        have hno := (List.countP_eq_zero.mp h0) e he
        rcases hz' e he with h | h
        · exact h
        · exact absurd (by simpa [oversized] using h) hno
      exact Or.inl (by rw [totalSize_eq_zero_of_all_zero hall]; omega)
    · exact Or.inr ⟨hz', by omega⟩

/-- On a store holding exactly one oversized entry (everything else empty),
an eviction pass with a positive byte requirement frees everything that has
any mass: the surviving entries total zero bytes. -/
theorem cleanOldest_oversized_shape (s : List CachedPhoto) (needed : Nat)
    (hz : ∀ e ∈ s, e.sizeBytes = 0 ∨ MAX_CACHE_SIZE_BYTES < e.sizeBytes)
    (hc : s.countP oversized = 1) (hpos : 0 < needed) :
    totalSize (PhotoCache.cleanOldest needed 0 s) = 0 := by
  obtain ⟨k, hk, _, hstop⟩ := cleanOldest_spec needed s 0
  rw [hk]
  rcases hstop with hnil | hge
  · rw [hnil]; rfl
  · rw [Nat.zero_add] at hge
    have htpos : 0 < totalSize (s.take k) := lt_of_lt_of_le hpos hge
    obtain ⟨e, he, hep⟩ := mem_of_totalSize_pos _ htpos
    have hes : e ∈ s := List.take_subset k s he
    have heo : oversized e = true := by
      rcases hz e hes with h | h
      · omega
      · simpa [oversized] using h
    have hcount : 0 < (s.take k).countP oversized :=
      List.countP_pos_iff.mpr ⟨e, he, heo⟩
    have hsplit : (s.take k).countP oversized + (s.drop k).countP oversized = 1 := by
      rw [← List.countP_append, List.take_append_drop]
      exact hc
    have hzero : (s.drop k).countP oversized = 0 := by omega
    refine totalSize_eq_zero_of_all_zero ?_
    intro a ha
    have hano := (List.countP_eq_zero.mp hzero) a ha
    rcases hz a (List.drop_subset k s ha) with h | h
    · exact h
    · exact absurd (by simpa [oversized] using h) hano

/-- Central size lemma for `PhotoCache.set`: the size invariant is
preserved, and whenever the incoming payload is at most the capacity and
is either nonempty or lands on a within-budget store, the post-`set` total
respects the capacity. -/
theorem set_size_main (s : List CachedPhoto) (iid pid v : String) (now : Nat)
    (h : SizeInv s) :
    SizeInv (PhotoCache.set s iid pid v now) ∧
    (v.utf8ByteSize ≤ MAX_CACHE_SIZE_BYTES →
      (0 < v.utf8ByteSize ∨ totalSize s ≤ MAX_CACHE_SIZE_BYTES) →
      totalSize (PhotoCache.set s iid pid v now) ≤ MAX_CACHE_SIZE_BYTES) := by
  have hres : PhotoCache.set s iid pid v now =
      (if MAX_CACHE_SIZE_BYTES < totalSize s + v.utf8ByteSize
        then PhotoCache.cleanOldest v.utf8ByteSize 0 s else s).filter
          (fun e => e.key != mkKey iid pid)
        ++ [⟨mkKey iid pid, v, now, v.utf8ByteSize⟩] := rfl
  have hsingle : totalSize [(⟨mkKey iid pid, v, now, v.utf8ByteSize⟩ : CachedPhoto)]
      = v.utf8ByteSize := by
    rw [totalSize_cons, totalSize_nil]
    rfl
  have hover : oversized (⟨mkKey iid pid, v, now, v.utf8ByteSize⟩ : CachedPhoto)
      = decide (MAX_CACHE_SIZE_BYTES < v.utf8ByteSize) := rfl
  by_cases hg : MAX_CACHE_SIZE_BYTES < totalSize s + v.utf8ByteSize
  · rw [hres, if_pos hg]
    rcases h with hT | ⟨hz, hc⟩
    · -- within-budget store
      obtain ⟨k, hk, _, hstop⟩ := cleanOldest_spec v.utf8ByteSize s 0
      rw [hk]
      rcases hstop with hnil | hge
      · rw [hnil]
        refine ⟨?_, ?_⟩
        · by_cases hsz : v.utf8ByteSize ≤ MAX_CACHE_SIZE_BYTES
          · refine Or.inl ?_
            rw [List.filter_nil, List.nil_append, hsingle]
            omega
          · refine Or.inr ⟨?_, ?_⟩
            · intro e he
              simp only [List.filter_nil, List.nil_append, List.mem_singleton] at he
              subst he
              exact Or.inr (Nat.lt_of_not_le hsz)
            · rw [List.filter_nil, List.nil_append, List.countP_cons, hover]
              simp [Nat.lt_of_not_le hsz]
        · intro hsz _
          rw [List.filter_nil, List.nil_append, hsingle]
          omega
      · rw [Nat.zero_add] at hge
        have hbound : totalSize ((s.drop k).filter (fun e => e.key != mkKey iid pid)
            ++ [⟨mkKey iid pid, v, now, v.utf8ByteSize⟩]) ≤ MAX_CACHE_SIZE_BYTES := by
          rw [totalSize_append, hsingle]
          have h1 := totalSize_filter_le (fun e => e.key != mkKey iid pid) (s.drop k)
          have h2 := totalSize_take_add_drop s k
          omega
        exact ⟨Or.inl hbound, fun _ _ => hbound⟩
    · -- one-oversized store
      have hTbig : MAX_CACHE_SIZE_BYTES < totalSize s := by
        have hpos : 0 < s.countP oversized := by omega
        obtain ⟨e, he, heo⟩ := List.countP_pos_iff.mp hpos
        have h1 := le_totalSize_of_mem he
        have heb : MAX_CACHE_SIZE_BYTES < e.sizeBytes := by simpa [oversized] using heo
        omega
      by_cases hsz : 0 < v.utf8ByteSize
      · have h0 := cleanOldest_oversized_shape s v.utf8ByteSize hz hc hsz
        have hallzero : ∀ e ∈ PhotoCache.cleanOldest v.utf8ByteSize 0 s, e.sizeBytes = 0 := by
          intro e he
          have := le_totalSize_of_mem he
          omega
        have hfz : totalSize ((PhotoCache.cleanOldest v.utf8ByteSize 0 s).filter
            (fun e => e.key != mkKey iid pid)) = 0 :=
          totalSize_eq_zero_of_all_zero fun e he => hallzero e (List.mem_of_mem_filter he)
        refine ⟨?_, ?_⟩
        · by_cases hcap : v.utf8ByteSize ≤ MAX_CACHE_SIZE_BYTES
          · refine Or.inl ?_
            rw [totalSize_append, hsingle, hfz]
            omega
          · refine Or.inr ⟨?_, ?_⟩
            · intro e he
              rcases List.mem_append.mp he with he' | he'
              · exact Or.inl (hallzero e (List.mem_of_mem_filter he'))
              · simp only [List.mem_singleton] at he'
                subst he'
                exact Or.inr (Nat.lt_of_not_le hcap)
            · have hcf : ((PhotoCache.cleanOldest v.utf8ByteSize 0 s).filter
                  (fun e => e.key != mkKey iid pid)).countP oversized = 0 := by
                apply List.countP_eq_zero.mpr
                intro a ha
                have := hallzero a (List.mem_of_mem_filter ha)
                simp [oversized, this]
              rw [List.countP_append, hcf, List.countP_cons, hover]
              simp [Nat.lt_of_not_le hcap]
        · intro hcap _
          rw [totalSize_append, hsingle, hfz]
          omega
      · -- empty payload on an over-budget store: no eviction happens
        have hsz0 : v.utf8ByteSize = 0 := by omega
        obtain ⟨k, hk, hmin, _⟩ := cleanOldest_spec v.utf8ByteSize s 0
        have hk0 : k = 0 := by
          by_contra hne
          have := hmin 0 (by omega)
          omega
        rw [hk, hk0, List.drop_zero]
        have hz' : ∀ e ∈ s.filter (fun e => e.key != mkKey iid pid),
            e.sizeBytes = 0 ∨ MAX_CACHE_SIZE_BYTES < e.sizeBytes :=
          fun e he => hz e (List.mem_of_mem_filter he)
        have hle : (s.filter (fun e => e.key != mkKey iid pid)).countP oversized ≤ 1 :=
          hc ▸ countP_filter_le oversized (fun e => e.key != mkKey iid pid) s
        refine ⟨?_, ?_⟩
        · rcases Nat.lt_or_ge ((s.filter (fun e => e.key != mkKey iid pid)).countP
              oversized) 1 with h1 | h1
          · have h0 : (s.filter (fun e => e.key != mkKey iid pid)).countP oversized = 0 := by
              omega
            have hall : ∀ e ∈ s.filter (fun e => e.key != mkKey iid pid),
                e.sizeBytes = 0 := by
              intro e he
              have hno := (List.countP_eq_zero.mp h0) e he
              rcases hz' e he with h | h
              · exact h
              · exact absurd (by simpa [oversized] using h) hno
            refine Or.inl ?_
            rw [totalSize_append, hsingle,
              totalSize_eq_zero_of_all_zero hall, hsz0]
            omega
          · refine Or.inr ⟨?_, ?_⟩
            · intro e he
              rcases List.mem_append.mp he with he' | he'
              · exact hz' e he'
              · simp only [List.mem_singleton] at he'
                subst he'
                exact Or.inl hsz0
            · rw [List.countP_append, List.countP_cons, hover, hsz0]
              simp only [Nat.not_lt_zero, decide_eq_true_eq, if_false, List.countP_nil]
              omega
        · intro _ hside
          rcases hside with hp | hp
          · omega
          · omega
  · rw [hres, if_neg hg]
    have hb : totalSize (s.filter (fun e => e.key != mkKey iid pid)
        ++ [⟨mkKey iid pid, v, now, v.utf8ByteSize⟩]) ≤ MAX_CACHE_SIZE_BYTES := by
      rw [totalSize_append, hsingle]
      have := totalSize_filter_le (fun e => e.key != mkKey iid pid) s
      omega
    exact ⟨Or.inl hb, fun _ _ => hb⟩

/-- Unfolded form of `PhotoCache.set`: optional eviction pass, key
replacement, append of the fresh entry. -/
theorem set_eq (s : List CachedPhoto) (iid pid v : String) (now : Nat) :
    PhotoCache.set s iid pid v now =
      (if MAX_CACHE_SIZE_BYTES < totalSize s + v.utf8ByteSize
        then PhotoCache.cleanOldest v.utf8ByteSize 0 s else s).filter
          (fun e => e.key != mkKey iid pid)
        ++ [⟨mkKey iid pid, v, now, v.utf8ByteSize⟩] := rfl

theorem set_nil (iid pid v : String) (now : Nat) :
    PhotoCache.set [] iid pid v now = [⟨mkKey iid pid, v, now, v.utf8ByteSize⟩] := by
  rw [set_eq]
  rw [show PhotoCache.cleanOldest v.utf8ByteSize 0 [] = [] from rfl, ite_self]
  rfl

theorem timeSorted_filter (s : List CachedPhoto) (p : CachedPhoto → Bool)
    (h : TimeSorted s) : TimeSorted (s.filter p) :=
  List.Pairwise.sublist (List.filter_sublist s) h

theorem timeSorted_set (s : List CachedPhoto) (iid pid v : String) (now : Nat)
    (h : TimeSorted s) (hm : ∀ e ∈ s, e.timestamp ≤ now) :
    TimeSorted (PhotoCache.set s iid pid v now) := by
  rw [set_eq]
  have hsub : List.Sublist (if MAX_CACHE_SIZE_BYTES < totalSize s + v.utf8ByteSize
      then PhotoCache.cleanOldest v.utf8ByteSize 0 s else s) s := by
    split
    · obtain ⟨k, hk, _, _⟩ := cleanOldest_spec v.utf8ByteSize s 0
      rw [hk]
      exact List.drop_sublist k s
    · exact List.Sublist.refl s
  have hsub' : List.Sublist ((if MAX_CACHE_SIZE_BYTES < totalSize s + v.utf8ByteSize
      then PhotoCache.cleanOldest v.utf8ByteSize 0 s else s).filter
        (fun e => e.key != mkKey iid pid)) s :=
    List.Sublist.trans (List.filter_sublist _) hsub
  refine List.pairwise_append.mpr ⟨List.Pairwise.sublist hsub' h, List.pairwise_singleton .., ?_⟩
  intro a ha b hb
  simp only [List.mem_singleton] at hb
  subst hb
  exact hm a (hsub'.subset ha)

/-- The post-state of a `get` is either the unchanged store or the store
with the (expired) key deleted. -/
theorem get_snd_cases (s : List CachedPhoto) (iid pid : String) (now : Nat) :
    (PhotoCache.get s iid pid now).2 = s ∨
      (PhotoCache.get s iid pid now).2 = PhotoCache.delete s iid pid := by
  unfold PhotoCache.get
  cases s.find? (fun e => e.key == mkKey iid pid) with
  | none => exact Or.inl rfl
  | some e =>
    cases hexp : isExpired e now
    · refine Or.inl ?_
      show (if isExpired e now = true then ((none : Option String), PhotoCache.delete s iid pid)
        else (some e.dataUrl, s)).2 = s
      rw [if_neg (by simp [hexp])]
    · refine Or.inr ?_
      show (if isExpired e now = true then ((none : Option String), PhotoCache.delete s iid pid)
        else (some e.dataUrl, s)).2 = PhotoCache.delete s iid pid
      rw [if_pos (by simp [hexp])]

/-- Every reachable cache state satisfies the size and order invariant. -/
theorem reach_cacheInv {s : List CachedPhoto} (h : Reach s) : CacheInv s := by
  induction h with
  | empty => exact ⟨Or.inl (by rw [totalSize_nil]; omega), List.Pairwise.nil⟩
  | set s iid pid v now hs hm ih =>
    exact ⟨(set_size_main s iid pid v now ih.1).1, timeSorted_set s iid pid v now ih.2 hm⟩
  | get s iid pid now hs ih =>
    rcases get_snd_cases s iid pid now with h | h <;> rw [h]
    · exact ih
    · exact ⟨sizeInv_filter s _ ih.1, timeSorted_filter s _ ih.2⟩
  | del s iid pid hs ih =>
    exact ⟨sizeInv_filter s _ ih.1, timeSorted_filter s _ ih.2⟩
  | delInspection s iid hs ih =>
    exact ⟨sizeInv_filter s _ ih.1, timeSorted_filter s _ ih.2⟩
  | clear s hs ih =>
    exact ⟨Or.inl (by rw [PhotoCache.clear, totalSize_nil]; omega), List.Pairwise.nil⟩

/-! Helpers for building concrete payloads of a prescribed byte size
without ever materialising them: the UTF-8 size of `n` copies of a
character. -/

theorem utf8Go_replicate (n : Nat) (c : Char) :
    String.utf8ByteSize.go (List.replicate n c) = n * c.utf8Size := by
  induction n with
  | zero =>
    show (0 : Nat) = 0 * c.utf8Size
    rw [Nat.zero_mul]
  | succ m ih =>
    rw [List.replicate_succ]
    show String.utf8ByteSize.go (List.replicate m c) + c.utf8Size = (m + 1) * c.utf8Size
    rw [ih, Nat.succ_mul]

theorem utf8ByteSize_replicate (n : Nat) (c : Char) :
    (String.mk (List.replicate n c)).utf8ByteSize = n * c.utf8Size :=
  utf8Go_replicate n c

/-- A payload one byte larger than the whole cache capacity. -/
def bigPayload : String :=
  String.mk (List.replicate (MAX_CACHE_SIZE_BYTES + 1) 'a')

theorem bigPayload_size : bigPayload.utf8ByteSize = MAX_CACHE_SIZE_BYTES + 1 := by
  rw [bigPayload, utf8ByteSize_replicate]
  rw [show ('a').utf8Size = 1 from rfl, Nat.mul_one]

/-- C1 (amended part).  Starting from any reachable store, a completed
`set` whose incoming payload is at most the capacity (and is either
nonempty or lands on a within-budget store) leaves the total stored bytes
within `capacityBytes`; the eviction pass that ran before the insert
removed a prefix of the ascending-`writtenAt` order (oldest first, each
removal only while the freed bytes were still short of the needed bytes,
stopping once freed bytes reached the needed bytes or the store was
exhausted), and the entry being inserted is appended only after the pass,
so it is never evicted. -/
theorem c1_eviction_bound (s : List CachedPhoto) (iid pid v : String) (now : Nat)
    (hreach : Reach s) (hm : ∀ e ∈ s, e.timestamp ≤ now)
    (hcap : v.utf8ByteSize ≤ MAX_CACHE_SIZE_BYTES)
    (hz : 0 < v.utf8ByteSize ∨ totalSize s ≤ MAX_CACHE_SIZE_BYTES) :
    totalSize (PhotoCache.set s iid pid v now) ≤ MAX_CACHE_SIZE_BYTES ∧
    ∃ k, PhotoCache.set s iid pid v now
          = (s.drop k).filter (fun e => e.key != mkKey iid pid)
            ++ [⟨mkKey iid pid, v, now, v.utf8ByteSize⟩] ∧
      (∀ j, j < k → totalSize (s.take j) < v.utf8ByteSize) ∧
      ((totalSize s + v.utf8ByteSize ≤ MAX_CACHE_SIZE_BYTES ∧ k = 0) ∨
        (MAX_CACHE_SIZE_BYTES < totalSize s + v.utf8ByteSize ∧
          (v.utf8ByteSize ≤ totalSize (s.take k) ∨ s.drop k = []))) ∧
      (∀ a ∈ s.take k, ∀ b ∈ s.drop k, a.timestamp ≤ b.timestamp) ∧
      List.Pairwise (fun a b => a.timestamp ≤ b.timestamp) (s.take k) := by
  obtain ⟨hsize, hsorted⟩ := reach_cacheInv hreach
  refine ⟨(set_size_main s iid pid v now hsize).2 hcap hz, ?_⟩
  by_cases hg : MAX_CACHE_SIZE_BYTES < totalSize s + v.utf8ByteSize
  · obtain ⟨k, hk, hmin, hstop⟩ := cleanOldest_spec v.utf8ByteSize s 0
    have hpair : List.Pairwise (fun a b => a.timestamp ≤ b.timestamp) (s.take k ++ s.drop k) := by
      rw [List.take_append_drop]
      exact hsorted
    obtain ⟨hp1, _, hcross⟩ := List.pairwise_append.mp hpair
    refine ⟨k, ?_, ?_, Or.inr ⟨hg, ?_⟩, hcross, hp1⟩
    · rw [set_eq, if_pos hg, hk]
    · intro j hj
      have := hmin j hj
      omega
    · rcases hstop with h | h
      · exact Or.inr h
      · exact Or.inl (by omega)
  · refine ⟨0, ?_, by omega, Or.inl ⟨Nat.le_of_not_lt hg, rfl⟩, by simp, by simp⟩
    rw [set_eq, if_neg hg, List.drop_zero]

/-- Witness for `c1_eviction_bound` at a concrete input. -/
theorem c1_eviction_bound_witness :
    totalSize (PhotoCache.set [] "insp" "photo" "a" 0) ≤ MAX_CACHE_SIZE_BYTES :=
  (c1_eviction_bound [] "insp" "photo" "a" 0 Reach.empty (by simp)
    (by decide) (Or.inl (by decide))).1

/-- C1 counterexample.  The claim as stated (after every `set` whose
incoming entry does not itself exceed the capacity, the live bytes are at
most `capacityBytes`) fails on the code: insert a payload of
`capacityBytes + 1` bytes (the barred oversized case), then insert an
empty payload.  The second `set` computes `neededBytes = 0`, so
`cleanOldest` frees nothing (`freedBytes < neededBytes` is false at once),
and the store still totals `capacityBytes + 1` bytes after a `set` whose
incoming entry is 0 bytes. -/
theorem c1_counterexample :
    Reach (PhotoCache.set (PhotoCache.set [] "i" "p1" bigPayload 0) "i" "p2" "" 1) ∧
    ("" : String).utf8ByteSize ≤ MAX_CACHE_SIZE_BYTES ∧
    MAX_CACHE_SIZE_BYTES <
      totalSize (PhotoCache.set (PhotoCache.set [] "i" "p1" bigPayload 0) "i" "p2" "" 1) := by
  have hempty : ("" : String).utf8ByteSize = 0 := rfl
  have hs1 : PhotoCache.set [] "i" "p1" bigPayload 0
      = [⟨mkKey "i" "p1", bigPayload, 0, MAX_CACHE_SIZE_BYTES + 1⟩] := by
    rw [set_nil, bigPayload_size]
  have hguard : MAX_CACHE_SIZE_BYTES <
      totalSize [(⟨mkKey "i" "p1", bigPayload, 0, MAX_CACHE_SIZE_BYTES + 1⟩ : CachedPhoto)]
        + ("" : String).utf8ByteSize := by
    rw [totalSize_cons, totalSize_nil]
    simp only [CachedPhoto.sizeBytes_mk]
    omega
  have hclean : PhotoCache.cleanOldest (("" : String).utf8ByteSize) 0
      [(⟨mkKey "i" "p1", bigPayload, 0, MAX_CACHE_SIZE_BYTES + 1⟩ : CachedPhoto)]
      = [⟨mkKey "i" "p1", bigPayload, 0, MAX_CACHE_SIZE_BYTES + 1⟩] := rfl
  have hkey : ((⟨mkKey "i" "p1", bigPayload, 0, MAX_CACHE_SIZE_BYTES + 1⟩ : CachedPhoto).key
      != mkKey "i" "p2") = true := rfl
  have hs2 : PhotoCache.set [⟨mkKey "i" "p1", bigPayload, 0, MAX_CACHE_SIZE_BYTES + 1⟩]
      "i" "p2" "" 1
      = [⟨mkKey "i" "p1", bigPayload, 0, MAX_CACHE_SIZE_BYTES + 1⟩,
          ⟨mkKey "i" "p2", "", 1, ("" : String).utf8ByteSize⟩] := by
    rw [set_eq, if_pos hguard, hclean, List.filter_cons, hkey]
    rfl
  refine ⟨?_, by omega, ?_⟩
  · refine Reach.set _ "i" "p2" "" 1 (Reach.set _ "i" "p1" bigPayload 0 Reach.empty ?_) ?_
    · intro e he
      cases he
    · intro e he
      rw [hs1] at he
      simp only [List.mem_singleton] at he
      subst he
      exact Nat.zero_le 1
  · rw [hs1, hs2, totalSize_cons, totalSize_cons, totalSize_nil]
    simp only [CachedPhoto.sizeBytes_mk]
    omega

/-! Lemmas computing `PhotoCache.get` from the result of the key lookup. -/

theorem get_eq_of_find (s : List CachedPhoto) (iid pid : String) (now : Nat)
    (e : CachedPhoto) (hfind : s.find? (fun x => x.key == mkKey iid pid) = some e) :
    PhotoCache.get s iid pid now =
      if isExpired e now then (none, PhotoCache.delete s iid pid)
      else (some e.dataUrl, s) := by
  unfold PhotoCache.get
  rw [hfind]

theorem get_eq_of_find_none (s : List CachedPhoto) (iid pid : String) (now : Nat)
    (hfind : s.find? (fun x => x.key == mkKey iid pid) = none) :
    PhotoCache.get s iid pid now = (none, s) := by
  unfold PhotoCache.get
  rw [hfind]

theorem find?_append_of_none (p : CachedPhoto → Bool) (l₁ l₂ : List CachedPhoto)
    (h : l₁.find? p = none) : (l₁ ++ l₂).find? p = l₂.find? p := by
  induction l₁ with
  | nil => rfl
  | cons a rest ih =>
    rw [List.find?_cons] at h
    rcases hpa : p a with _ | _
    · rw [List.cons_append, List.find?_cons, hpa]
      rw [hpa] at h
      exact ih h
    · rw [hpa] at h
      simp at h

/-- C7.  A cached entry whose age exceeds the 7-day TTL is reported as a
miss by the next `get` on its key and is removed from the store; an
unexpired entry is returned as a hit. -/
theorem c7_ttl_expiry (s : List CachedPhoto) (iid pid : String) (now : Nat)
    (e : CachedPhoto) (hfind : s.find? (fun x => x.key == mkKey iid pid) = some e) :
    (CACHE_EXPIRY_MS < now - e.timestamp →
      (PhotoCache.get s iid pid now).1 = none ∧
      ∀ x ∈ (PhotoCache.get s iid pid now).2, x.key ≠ mkKey iid pid) ∧
    (now - e.timestamp ≤ CACHE_EXPIRY_MS →
      (PhotoCache.get s iid pid now).1 = some e.dataUrl) := by
  rw [get_eq_of_find s iid pid now e hfind]
  constructor
  · intro hage
    have hexp : isExpired e now = true := by
      simp [isExpired, hage]
    rw [if_pos hexp]
    refine ⟨rfl, ?_⟩
    intro x hx
    simp only [PhotoCache.delete, List.mem_filter, bne_iff_ne, ne_eq] at hx
    exact hx.2
  · intro hage
    have hexp : isExpired e now = false := by
      simp [isExpired]
      omega
    rw [if_neg (by simp [hexp])]

/-- Witness for `c7_ttl_expiry`: a 4-byte entry written at time 0 is a
miss (and is removed) when read one millisecond past the TTL, and a hit
when read before the TTL. -/
theorem c7_ttl_expiry_witness :
    ((PhotoCache.get [⟨mkKey "i" "p", "data", 0, 4⟩] "i" "p" (CACHE_EXPIRY_MS + 1)).1 = none ∧
      ∀ x ∈ (PhotoCache.get [⟨mkKey "i" "p", "data", 0, 4⟩] "i" "p" (CACHE_EXPIRY_MS + 1)).2,
        x.key ≠ mkKey "i" "p") ∧
    (PhotoCache.get [⟨mkKey "i" "p", "data", 0, 4⟩] "i" "p" 5).1 = some "data" := by
  refine ⟨(c7_ttl_expiry [⟨mkKey "i" "p", "data", 0, 4⟩] "i" "p" (CACHE_EXPIRY_MS + 1)
    ⟨mkKey "i" "p", "data", 0, 4⟩ rfl).1 ?_, ?_⟩
  · simp only [CachedPhoto.timestamp_mk]
    omega
  · have h := (c7_ttl_expiry [⟨mkKey "i" "p", "data", 0, 4⟩] "i" "p" 5
      ⟨mkKey "i" "p", "data", 0, 4⟩ rfl).2 ?_
    · exact h
    · simp only [CachedPhoto.timestamp_mk, CACHE_EXPIRY_MS]
      omega

/-- A fresh entry appended after key replacement is found by `get` and is
a hit while the TTL has not elapsed. -/
theorem get_fresh_append (s1 : List CachedPhoto) (iid pid v : String) (tset tget : Nat)
    (httl : tget - tset ≤ CACHE_EXPIRY_MS) :
    (PhotoCache.get (s1.filter (fun e => e.key != mkKey iid pid)
      ++ [⟨mkKey iid pid, v, tset, v.utf8ByteSize⟩]) iid pid tget).1 = some v := by
  have hnone : (s1.filter (fun e => e.key != mkKey iid pid)).find?
      (fun x => x.key == mkKey iid pid) = none := by
    apply List.find?_eq_none.mpr
    intro x hx
    simp only [List.mem_filter, bne_iff_ne, ne_eq] at hx
    simp [hx.2]
  have hfind : (s1.filter (fun e => e.key != mkKey iid pid)
      ++ ([⟨mkKey iid pid, v, tset, v.utf8ByteSize⟩] : List CachedPhoto)).find?
        (fun x => x.key == mkKey iid pid)
      = some ⟨mkKey iid pid, v, tset, v.utf8ByteSize⟩ := by
    rw [find?_append_of_none _ _ _ hnone]
    simp [List.find?_cons]
  rw [get_eq_of_find _ iid pid tget _ hfind]
  have hexp : isExpired (⟨mkKey iid pid, v, tset, v.utf8ByteSize⟩ : CachedPhoto) tget
      = false := by
    simp only [isExpired, CachedPhoto.timestamp_mk, decide_eq_false_iff_not, not_lt]
    omega
  rw [if_neg (by simp [hexp])]

/-- C9.  `set(k, v)` immediately followed by `get(k)` returns `v`,
provided the TTL has not elapsed between the write and the read (with no
intervening operation, nothing can evict the fresh entry). -/
theorem c9_round_trip (s : List CachedPhoto) (iid pid v : String) (tset tget : Nat)
    (httl : tget - tset ≤ CACHE_EXPIRY_MS) :
    (PhotoCache.get (PhotoCache.set s iid pid v tset) iid pid tget).1 = some v := by
  rw [set_eq]
  exact get_fresh_append _ iid pid v tset tget httl

/-- Witness for `c9_round_trip` at a concrete input. -/
theorem c9_round_trip_witness :
    (PhotoCache.get (PhotoCache.set [] "i" "p" "hello" 0) "i" "p" 0).1 = some "hello" :=
  c9_round_trip [] "i" "p" "hello" 0 0 (by omega)

/-- C10.  `set` on a store already holding the key computes its pre-insert
occupancy check as `totalSize s + incomingSize > capacityBytes` — counting
the live entry for the key as well as the incoming payload — so the
eviction pass runs and removes the oldest entry (of a different key) even
when the overwrite would leave the final total within capacity. -/
theorem c10_overwrite_double_count (h0 : CachedPhoto) (rest : List CachedPhoto)
    (iid pid v : String) (now : Nat) (e : CachedPhoto)
    (hmem : e ∈ h0 :: rest) (hek : e.key = mkKey iid pid)
    (hhk : h0.key ≠ mkKey iid pid)
    (hnodup : ((h0 :: rest).map (·.key)).Nodup)
    (hT : totalSize (h0 :: rest) ≤ MAX_CACHE_SIZE_BYTES)
    (hover : MAX_CACHE_SIZE_BYTES < totalSize (h0 :: rest) + v.utf8ByteSize)
    (hfit : totalSize (h0 :: rest) - e.sizeBytes + v.utf8ByteSize ≤ MAX_CACHE_SIZE_BYTES)
    (hpos : 0 < v.utf8ByteSize) :
    PhotoCache.set (h0 :: rest) iid pid v now
        = (PhotoCache.cleanOldest v.utf8ByteSize 0 (h0 :: rest)).filter
            (fun x => x.key != mkKey iid pid)
          ++ [⟨mkKey iid pid, v, now, v.utf8ByteSize⟩] ∧
    h0 ∉ PhotoCache.set (h0 :: rest) iid pid v now := by
  have heq : PhotoCache.set (h0 :: rest) iid pid v now
      = (PhotoCache.cleanOldest v.utf8ByteSize 0 (h0 :: rest)).filter
          (fun x => x.key != mkKey iid pid)
        ++ [⟨mkKey iid pid, v, now, v.utf8ByteSize⟩] := by
    rw [set_eq, if_pos hover]
  refine ⟨heq, ?_⟩
  rw [heq]
  intro hcontra
  rcases List.mem_append.mp hcontra with hin | hin
  · -- h0 would have to survive the eviction pass, but it is the first
    -- entry removed (freed = 0 < neededBytes at the head).
    have hin' := List.mem_of_mem_filter hin
    obtain ⟨k, hk, _, hstop⟩ := cleanOldest_spec v.utf8ByteSize (h0 :: rest) 0
    rw [hk] at hin'
    have hk1 : 1 ≤ k := by
      by_contra hk0
      have hk0' : k = 0 := by omega
      rw [hk0', List.drop_zero] at hstop
      rcases hstop with h | h
      · cases h
      · rw [List.take_zero, totalSize_nil] at h
        omega
    have hrest : h0 ∈ rest := by
      have hsub : List.Sublist ((h0 :: rest).drop k) ((h0 :: rest).drop 1) :=
        List.drop_sublist_drop_left (h0 :: rest) hk1
      have := hsub.subset hin'
      simpa using this
    have : h0.key ∈ rest.map (·.key) := List.mem_map_of_mem _ hrest
    rw [List.map_cons, List.nodup_cons] at hnodup
    exact hnodup.1 this
  · simp only [List.mem_singleton] at hin
    exact hhk (by rw [hin])

/-- A 5,000,000-byte payload for the `c10` witness. -/
def midPayload : String := String.mk (List.replicate 5000000 'a')

theorem midPayload_size : midPayload.utf8ByteSize = 5000000 := by
  rw [midPayload, utf8ByteSize_replicate]
  rw [show ('a').utf8Size = 1 from rfl, Nat.mul_one]

/-- Witness for `c10_overwrite_double_count`: a 100,000,000-byte store
(60 MB oldest entry `i:a` plus 40 MB entry `i:b`), overwritten at key
`i:b` with a 5,000,000-byte payload.  The final total would fit
(65,000,000 ≤ capacity), yet the check `100,000,000 + 5,000,000 >
104,857,600` triggers eviction and the unrelated oldest entry `i:a` is
gone afterwards. -/
theorem c10_overwrite_double_count_witness :
    (⟨mkKey "i" "a", "x", 0, 60000000⟩ : CachedPhoto) ∉
      PhotoCache.set [⟨mkKey "i" "a", "x", 0, 60000000⟩,
        ⟨mkKey "i" "b", "y", 1, 40000000⟩] "i" "b" midPayload 2 := by
  have h := c10_overwrite_double_count ⟨mkKey "i" "a", "x", 0, 60000000⟩
    [⟨mkKey "i" "b", "y", 1, 40000000⟩] "i" "b" midPayload 2
    ⟨mkKey "i" "b", "y", 1, 40000000⟩
    (by simp) rfl (by decide) (by decide)
    (by decide)
    (by rw [midPayload_size]; decide)
    (by rw [midPayload_size]; decide)
    (by rw [midPayload_size]; decide)
  exact h.2

/-! ## Failure-mode model of the cache operations (C5)

Each public operation wraps its body in `try/catch`.  The `await
this.init()` call is awaited inside the `try`, so a medium-unavailable
failure (`indexedDB.open` error) is caught and the operation degrades to
`null` / `void` / empty.  The per-request IndexedDB work, however, is
performed inside a `new Promise((resolve, reject) => ...)` that the
`async` method *returns without awaiting*: when `request.onerror` fires,
`reject(request.error)` rejects that already-returned promise after the
`try` block has finished, so the `catch` cannot intercept it and the
caller observes the rejection.  (`batchGet` is the exception: its
per-item `onerror` handler counts the item as completed and resolves with
the partial map, so it never rejects.)  Inside `set`, the `getTotalSize`
and `cleanOldest` sub-calls are awaited, so their rejections are caught by
`set`'s own `catch`; only the final `put` request escapes. -/

/-- Outcome of an async cache operation as observed by its caller: the
returned promise either fulfills with a value or rejects. -/
inductive OpOutcome (α : Type) where
  | value (a : α)
  | rejected
deriving DecidableEq, Repr

/-- `PhotoCache.get` with medium availability (`initOk`) and per-request
success (`reqOk`) made explicit. -/
def PhotoCache.getIO (initOk reqOk : Bool) (s : List CachedPhoto)
    (iid pid : String) (now : Nat) : OpOutcome (Option String) × List CachedPhoto :=
  if !initOk then (.value none, s)
  else if !reqOk then (.rejected, s)
  else (.value (PhotoCache.get s iid pid now).1, (PhotoCache.get s iid pid now).2)

/-- `PhotoCache.set` with medium availability (`initOk`), success of the
awaited size-check/eviction phase (`preOk`) and of the final `put` request
(`putOk`) made explicit.  A failed `put` leaves the eviction already
applied and rejects. -/
def PhotoCache.setIO (initOk preOk putOk : Bool) (s : List CachedPhoto)
    (iid pid v : String) (now : Nat) : OpOutcome Unit × List CachedPhoto :=
  if !initOk then (.value (), s)
  else if !preOk then (.value (), s)
  else if !putOk then
    (.rejected, if MAX_CACHE_SIZE_BYTES < totalSize s + v.utf8ByteSize
      then PhotoCache.cleanOldest v.utf8ByteSize 0 s else s)
  else (.value (), PhotoCache.set s iid pid v now)

/-- `PhotoCache.delete` with failure flags. -/
def PhotoCache.deleteIO (initOk reqOk : Bool) (s : List CachedPhoto)
    (iid pid : String) : OpOutcome Unit × List CachedPhoto :=
  if !initOk then (.value (), s)
  else if !reqOk then (.rejected, s)
  else (.value (), PhotoCache.delete s iid pid)

/-- `PhotoCache.batchGet` with failure flags: per-item request errors are
counted as completed misses, so the operation always fulfills. -/
def PhotoCache.batchGetIO (initOk : Bool) (reqOk : String → Bool)
    (s : List CachedPhoto) (iid : String) (photoIds : List String) (now : Nat) :
    OpOutcome (List (String × String)) :=
  if !initOk then .value []
  else .value (photoIds.filterMap fun pid =>
    if !reqOk pid then none
    else match s.find? (fun e => e.key == mkKey iid pid) with
      | none => none
      | some e => if isExpired e now then none else some (pid, e.dataUrl))

/-- C5 (exhibit).  When the medium is unavailable at `init`, `get` and
`set` degrade to `null`/void as the claim states; but a per-request
storage failure in `get`, `set` (the `put` request) or `delete` rejects
the promise the caller received — the `try/catch` cannot catch a
rejection of a returned-but-not-awaited promise — contradicting the
claim that no cache operation ever propagates an error.  `batchGet`
absorbs per-item failures. -/
theorem c5_error_propagation :
    (PhotoCache.getIO false false [] "i" "p" 0).1 = OpOutcome.value none ∧
    (PhotoCache.setIO false true true [] "i" "p" "v" 0).1 = OpOutcome.value () ∧
    (PhotoCache.getIO true false [] "i" "p" 0).1 = OpOutcome.rejected ∧
    (PhotoCache.setIO true true false [] "i" "p" "v" 0).1 = OpOutcome.rejected ∧
    (PhotoCache.deleteIO true false [] "i" "p").1 = OpOutcome.rejected ∧
    PhotoCache.batchGetIO true (fun _ => false) [] "i" ["p"] 0 = OpOutcome.value [] := by
  exact ⟨rfl, rfl, rfl, rfl, rfl, rfl⟩

/-! ## Batch fetch orchestrator (C3, C4)

`batchFetchPhotoData` from the database-hooks module.  Only the `id` and
`storage_key` fields of a `Photo` record are read or written by the
orchestrator; the other metadata fields play no role in the modelled
claims. -/

structure Photo where
  id : String
  storage_key : String
deriving DecidableEq, Repr

/-- `KEYS.photoData(inspectionId, photoId)`. -/
def photoDataKey (inspectionId photoId : String) : String :=
  "photo-data:" ++ inspectionId ++ ":" ++ photoId

/-- Lookup in the `Map<string, string>` of cache hits. -/
def lookupHit (m : List (String × String)) (pid : String) : Option String :=
  (m.find? (fun x => x.1 == pid)).map (·.2)

/-- JS `Map.set` on an association list: overwrite in place when present,
else append (insertion order preserved). -/
def mapSet (m : List (String × Photo)) (k : String) (v : Photo) : List (String × Photo) :=
  if m.any (fun x => x.1 == k) then m.map (fun x => if x.1 == k then (k, v) else x)
  else m ++ [(k, v)]

/-- JS `Map.get`. -/
def mapGet (m : List (String × Photo)) (k : String) : Option Photo :=
  (m.find? (fun x => x.1 == k)).map (·.2)

/-- Step 2: ids not found in the cache-hit map. -/
def missingIds (store : List CachedPhoto) (iid : String) (photoIds : List String)
    (now : Nat) : List String :=
  photoIds.filter fun pid =>
    !((PhotoCache.batchGet store iid photoIds now).any (fun x => x.1 == pid))

/-- Step 3: the single `kvStore.mget` call — the server answers each
requested key independently. -/
def serverFetch (remote : String → Option Photo) (iid : String)
    (missing : List String) : List (Option Photo) :=
  (missing.map (photoDataKey iid)).map remote

/-- Step 4: write-through of fetched photos with a non-empty payload into
the browser cache. -/
def writeThrough (store : List CachedPhoto) (iid : String) (missing : List String)
    (server : List (Option Photo)) (now : Nat) : List CachedPhoto :=
  (missing.zip server).foldl
    (fun st x => match x.2 with
      | some ph =>
        if ph.storage_key != "" then PhotoCache.set st iid x.1 ph.storage_key now else st
      | none => st) store

/-- Step 5: the `photoMap` — cached photos first, then the server photos
keyed by their requested id. -/
def mergedMap (cached : List (String × String)) (missing : List String)
    (server : List (Option Photo)) : List (String × Photo) :=
  (missing.zip server).foldl
    (fun m x => match x.2 with
      | some ph => mapSet m x.1 ph
      | none => m)
    (cached.foldl (fun m x => mapSet m x.1 ⟨x.1, x.2⟩) [])

/-- Result of one `batchFetchPhotoData` call: the returned photos, the
number of remote batch calls issued, the keys of that call, and the cache
store after write-through. -/
structure FetchOutcome where
  photos : List Photo
  remoteCalls : Nat
  remoteKeys : List String
  store : List CachedPhoto
deriving Repr

/-- `batchFetchPhotoData(inspectionId, photoIds, onProgress?)`: early
return on an empty input; consult the cache in one batch; if nothing is
missing, build the result from cache alone (zero remote calls); otherwise
issue exactly one `mget` over the missing keys, write the results
through, and merge cache and server photos back into input order,
dropping ids found in neither (`.filter(Boolean)`). -/
def batchFetchPhotoData (store : List CachedPhoto) (remote : String → Option Photo)
    (iid : String) (photoIds : List String) (now : Nat) : FetchOutcome :=
  if photoIds.isEmpty then ⟨[], 0, [], store⟩
  else
    let cachedPhotos := PhotoCache.batchGet store iid photoIds now
    let missing := missingIds store iid photoIds now
    if missing.isEmpty then
      ⟨photoIds.map (fun pid => ⟨pid, (lookupHit cachedPhotos pid).getD ""⟩),
        0, [], store⟩
    else
      ⟨photoIds.filterMap
          (fun pid => mapGet (mergedMap cachedPhotos missing (serverFetch remote iid missing)) pid),
        1, missing.map (photoDataKey iid),
        writeThrough store iid missing (serverFetch remote iid missing) now⟩

/-- C3.  For every non-empty input list: if at least one id misses the
cache, exactly one remote batch call (`kvStore.mget`) is issued, over
exactly the keys of all missing ids — never one request per missing item;
if every id hits the cache, zero remote calls are issued. -/
theorem c3_batch_coalescing (store : List CachedPhoto) (remote : String → Option Photo)
    (iid : String) (photoIds : List String) (now : Nat) (hne : photoIds ≠ []) :
    (missingIds store iid photoIds now ≠ [] →
      (batchFetchPhotoData store remote iid photoIds now).remoteCalls = 1 ∧
      (batchFetchPhotoData store remote iid photoIds now).remoteKeys
        = (missingIds store iid photoIds now).map (photoDataKey iid)) ∧
    (missingIds store iid photoIds now = [] →
      (batchFetchPhotoData store remote iid photoIds now).remoteCalls = 0 ∧
      (batchFetchPhotoData store remote iid photoIds now).remoteKeys = []) := by
  have hne' : photoIds.isEmpty = false := by
    cases photoIds
    · exact absurd rfl hne
    · rfl
  constructor
  · intro hmiss
    have hm' : (missingIds store iid photoIds now).isEmpty = false := by
      cases hmi : missingIds store iid photoIds now
      · exact absurd hmi hmiss
      · rfl
    simp [batchFetchPhotoData, hne', hm']
  · intro hmiss
    simp [batchFetchPhotoData, hne', hmiss]

/-- Witness for `c3_batch_coalescing`: with `a` cached and `b` missing,
`fetch(["a","b"])` issues one remote call for key `photo-data:i:b`; with
only `a` requested, zero remote calls. -/
theorem c3_batch_coalescing_witness :
    (batchFetchPhotoData [⟨mkKey "i" "a", "da", 0, 2⟩] (fun _ => none)
      "i" ["a", "b"] 0).remoteCalls = 1 ∧
    (batchFetchPhotoData [⟨mkKey "i" "a", "da", 0, 2⟩] (fun _ => none)
      "i" ["a", "b"] 0).remoteKeys = [photoDataKey "i" "b"] ∧
    (batchFetchPhotoData [⟨mkKey "i" "a", "da", 0, 2⟩] (fun _ => none)
      "i" ["a"] 0).remoteCalls = 0 := by
  have h1 := (c3_batch_coalescing [⟨mkKey "i" "a", "da", 0, 2⟩] (fun _ => none)
    "i" ["a", "b"] 0 (by simp)).1 (by decide)
  have h2 := (c3_batch_coalescing [⟨mkKey "i" "a", "da", 0, 2⟩] (fun _ => none)
    "i" ["a"] 0 (by simp)).2 (by decide)
  refine ⟨h1.1, ?_, h2.1⟩
  rw [h1.2]
  decide

/-! Lemmas for C4: which ids end up in the merged photo map. -/

theorem mapGet_isSome_iff (m : List (String × Photo)) (k : String) :
    (mapGet m k).isSome = true ↔ ∃ x ∈ m, x.1 = k := by
  simp [mapGet, List.find?_isSome]

theorem lookupHit_isSome_iff (m : List (String × String)) (k : String) :
    (lookupHit m k).isSome = true ↔ ∃ x ∈ m, x.1 = k := by
  simp [lookupHit, List.find?_isSome]

theorem mapSet_mem_key_iff (m : List (String × Photo)) (k k' : String) (v : Photo) :
    (∃ x ∈ mapSet m k' v, x.1 = k) ↔ (k = k' ∨ ∃ x ∈ m, x.1 = k) := by
  unfold mapSet
  by_cases hany : m.any (fun x => x.1 == k') = true
  · rw [if_pos hany]
    constructor
    · rintro ⟨x, hx, hxk⟩
      rw [List.mem_map] at hx
      obtain ⟨y, hy, hyx⟩ := hx
      by_cases hyk : y.1 = k'
      · rw [if_pos (by simp [hyk])] at hyx
        subst hyx
        exact Or.inl hxk.symm
      · rw [if_neg (by simp [hyk])] at hyx
        subst hyx
        exact Or.inr ⟨y, hy, hxk⟩
    · rintro (rfl | ⟨x, hx, hxk⟩)
      · obtain ⟨y, hy, hyk⟩ := List.any_eq_true.mp hany
        exact ⟨(k, v), List.mem_map.mpr ⟨y, hy, by simp [hyk]⟩, rfl⟩
      · by_cases hxk' : x.1 = k'
        · exact ⟨(k', v), List.mem_map.mpr ⟨x, hx, by simp [hxk']⟩, by rw [← hxk, hxk']⟩
        · exact ⟨x, List.mem_map.mpr ⟨x, hx, by simp [hxk']⟩, hxk⟩
  · rw [if_neg hany]
    constructor
    · rintro ⟨x, hx, hxk⟩
      rcases List.mem_append.mp hx with h | h
      · exact Or.inr ⟨x, h, hxk⟩
      · simp only [List.mem_singleton] at h
        subst h
        exact Or.inl hxk.symm
    · rintro (rfl | ⟨x, hx, hxk⟩)
      · exact ⟨(k, v), List.mem_append.mpr (Or.inr (List.mem_singleton.mpr rfl)), rfl⟩
      · exact ⟨x, List.mem_append.mpr (Or.inl hx), hxk⟩

theorem foldl_mapSet_cached_key_iff (cached : List (String × String))
    (m : List (String × Photo)) (k : String) :
    (∃ x ∈ cached.foldl (fun acc x => mapSet acc x.1 ⟨x.1, x.2⟩) m, x.1 = k) ↔
      ((∃ x ∈ cached, x.1 = k) ∨ ∃ x ∈ m, x.1 = k) := by
  induction cached generalizing m with
  | nil => simp
  | cons a rest ih =>
    rw [List.foldl_cons, ih, mapSet_mem_key_iff]
    simp only [List.mem_cons]
    constructor
    · rintro (h | (h | h))
      · exact Or.inl (by obtain ⟨x, hx, hk⟩ := h; exact ⟨x, Or.inr hx, hk⟩)
      · exact Or.inl ⟨a, Or.inl rfl, h.symm⟩
      · exact Or.inr h
    · rintro (⟨x, (rfl | hx), hk⟩ | h)
      · exact Or.inr (Or.inl hk.symm)
      · exact Or.inl ⟨x, hx, hk⟩
      · exact Or.inr (Or.inr h)

theorem foldl_mapSet_server_key_iff (pairs : List (String × Option Photo))
    (m : List (String × Photo)) (k : String) :
    (∃ x ∈ pairs.foldl
        (fun acc x => match x.2 with | some ph => mapSet acc x.1 ph | none => acc) m,
      x.1 = k) ↔
      ((∃ p ∈ pairs, p.1 = k ∧ p.2.isSome = true) ∨ ∃ x ∈ m, x.1 = k) := by
  induction pairs generalizing m with
  | nil => simp
  | cons a rest ih =>
    rw [List.foldl_cons]
    cases ha : a.2 with
    | none =>
      dsimp only
      rw [ih]
      simp only [List.mem_cons]
      constructor
      · rintro (⟨p, hp, hk, hs⟩ | h)
        · exact Or.inl ⟨p, Or.inr hp, hk, hs⟩
        · exact Or.inr h
      · rintro (⟨p, (rfl | hp), hk, hs⟩ | h)
        · rw [ha] at hs
          simp at hs
        · exact Or.inl ⟨p, hp, hk, hs⟩
        · exact Or.inr h
    | some ph =>
      dsimp only
      rw [ih, mapSet_mem_key_iff]
      simp only [List.mem_cons]
      constructor
      · rintro (⟨p, hp, hk, hs⟩ | (h | h))
        · exact Or.inl ⟨p, Or.inr hp, hk, hs⟩
        · exact Or.inl ⟨a, Or.inl rfl, h.symm, by rw [ha]; rfl⟩
        · exact Or.inr h
      · rintro (⟨p, (rfl | hp), hk, hs⟩ | h)
        · exact Or.inr (Or.inl hk.symm)
        · exact Or.inl ⟨p, hp, hk, hs⟩
        · exact Or.inr (Or.inr h)

theorem zip_serverFetch (remote : String → Option Photo) (iid : String)
    (missing : List String) :
    missing.zip (serverFetch remote iid missing)
      = missing.map (fun p => (p, remote (photoDataKey iid p))) := by
  unfold serverFetch
  rw [List.map_map]
  induction missing with
  | nil => rfl
  | cons a rest ih =>
    rw [List.map_cons, List.map_cons, List.zip_cons_cons, ih]
    rfl

theorem mergedMap_key_iff (cached : List (String × String))
    (remote : String → Option Photo) (iid : String) (missing : List String)
    (k : String) :
    (mapGet (mergedMap cached missing (serverFetch remote iid missing)) k).isSome = true ↔
      ((∃ x ∈ cached, x.1 = k) ∨
        (k ∈ missing ∧ (remote (photoDataKey iid k)).isSome = true)) := by
  rw [mapGet_isSome_iff]
  unfold mergedMap
  rw [zip_serverFetch, foldl_mapSet_server_key_iff, foldl_mapSet_cached_key_iff]
  simp only [List.mem_map, List.not_mem_nil, false_and, exists_false, or_false]
  constructor
  · rintro (⟨p, ⟨q, hq, rfl⟩, hk, hs⟩ | h)
    · dsimp only at hk hs
      subst hk
      exact Or.inr ⟨hq, hs⟩
    · exact Or.inl h
  · rintro (h | ⟨hk, hs⟩)
    · exact Or.inr h
    · exact Or.inl ⟨(k, remote (photoDataKey iid k)), ⟨k, hk, rfl⟩, rfl, hs⟩

theorem mem_missingIds (store : List CachedPhoto) (iid : String)
    (photoIds : List String) (now : Nat) (pid : String) :
    pid ∈ missingIds store iid photoIds now ↔
      (pid ∈ photoIds ∧
        ¬ (lookupHit (PhotoCache.batchGet store iid photoIds now) pid).isSome = true) := by
  unfold missingIds
  rw [List.mem_filter, lookupHit_isSome_iff]
  constructor
  · rintro ⟨hmem, hany⟩
    refine ⟨hmem, ?_⟩
    rintro ⟨x, hx, hxk⟩
    have hfalse : (PhotoCache.batchGet store iid photoIds now).any
        (fun x => x.1 == pid) = false := by
      cases hb : (PhotoCache.batchGet store iid photoIds now).any (fun x => x.1 == pid)
      · rfl
      · rw [hb] at hany
        simp at hany
    exact (List.any_eq_false.mp hfalse x hx) (by simp [hxk])
  · rintro ⟨hmem, hno⟩
    refine ⟨hmem, ?_⟩
    have hfalse : (PhotoCache.batchGet store iid photoIds now).any
        (fun x => x.1 == pid) = false := by
      apply List.any_eq_false.mpr
      intro x hx hbeq
      exact hno ⟨x, hx, by simpa using hbeq⟩
    rw [hfalse]
    rfl

theorem length_filterMap_of_isSome (f : String → Option Photo) (l : List String)
    (h : ∀ x ∈ l, (f x).isSome = true) : (l.filterMap f).length = l.length := by
  induction l with
  | nil => rfl
  | cons a r ih =>
    rw [List.filterMap_cons]
    cases hfa : f a with
    | none =>
      have := h a (List.mem_cons_self ..)
      rw [hfa] at this
      simp at this
    | some ph =>
      dsimp only
      rw [List.length_cons, List.length_cons,
        ih fun x hx => h x (List.mem_cons_of_mem _ hx)]

theorem filterMap_some_eq_map (g : String → Photo) (l : List String) :
    (l.filterMap fun a => some (g a)) = l.map g := by
  induction l with
  | nil => rfl
  | cons a r ih =>
    rw [List.filterMap_cons]
    dsimp only
    rw [List.map_cons, ih]

/-- C4 (amended).  `batchFetchPhotoData` returns its results in input
order as an order-preserving projection of `photoIds` (a `filterMap`): an
id found in the cache or in the remote store contributes its photo in
place, while an id absent from both sources is omitted — the code's
single consistent convention (`.filter(Boolean)`).  Consequently the
result of a 3-element input is a 3-element list in input order exactly
when every item is a cache or remote hit; when some item is absent from
both sources the element is dropped rather than represented. -/
theorem c4_order_preservation (store : List CachedPhoto) (remote : String → Option Photo)
    (iid : String) (photoIds : List String) (now : Nat) :
    ∃ f : String → Option Photo,
      (batchFetchPhotoData store remote iid photoIds now).photos = photoIds.filterMap f ∧
      (∀ pid ∈ photoIds, ((f pid).isSome = true ↔
        ((lookupHit (PhotoCache.batchGet store iid photoIds now) pid).isSome = true ∨
          (remote (photoDataKey iid pid)).isSome = true))) ∧
      ((∀ pid ∈ photoIds,
          (lookupHit (PhotoCache.batchGet store iid photoIds now) pid).isSome = true ∨
            (remote (photoDataKey iid pid)).isSome = true) →
        (batchFetchPhotoData store remote iid photoIds now).photos.length
          = photoIds.length) := by
  by_cases h0 : photoIds = []
  · subst h0
    refine ⟨fun _ => none, by simp [batchFetchPhotoData], by simp, ?_⟩
    intro _
    simp [batchFetchPhotoData]
  · have hne' : photoIds.isEmpty = false := by
      cases photoIds
      · exact absurd rfl h0
      · rfl
    by_cases hm : (missingIds store iid photoIds now).isEmpty = true
    · -- every id hit the cache
      have hmnil : missingIds store iid photoIds now = [] := by
        cases hmi : missingIds store iid photoIds now
        · rfl
        · rw [hmi] at hm
          simp at hm
      have hbranch : (batchFetchPhotoData store remote iid photoIds now).photos
          = photoIds.map (fun pid =>
            (⟨pid, (lookupHit (PhotoCache.batchGet store iid photoIds now) pid).getD ""⟩
              : Photo)) := by
        simp [batchFetchPhotoData, hne', hm]
      refine ⟨fun pid => some ⟨pid,
        (lookupHit (PhotoCache.batchGet store iid photoIds now) pid).getD ""⟩, ?_, ?_, ?_⟩
      · rw [hbranch, ← filterMap_some_eq_map]
      · intro pid hpid
        constructor
        · intro _
          have hnotmiss : pid ∉ missingIds store iid photoIds now := by
            rw [hmnil]
            exact List.not_mem_nil _
          rw [mem_missingIds] at hnotmiss
          refine Or.inl ?_
          by_contra hniss
          exact hnotmiss ⟨hpid, hniss⟩
        · intro _
          rfl
      · intro _
        rw [hbranch, List.length_map]
    · -- at least one miss: remote batch call and merge
      have hm' : (missingIds store iid photoIds now).isEmpty = false := by
        cases hmi : missingIds store iid photoIds now
        · rw [hmi] at hm
          exact absurd rfl hm
        · rfl
      have hbranch : (batchFetchPhotoData store remote iid photoIds now).photos
          = photoIds.filterMap (fun pid =>
            mapGet (mergedMap (PhotoCache.batchGet store iid photoIds now)
              (missingIds store iid photoIds now)
              (serverFetch remote iid (missingIds store iid photoIds now))) pid) := by
        simp [batchFetchPhotoData, hne', hm']
      have hiff : ∀ pid ∈ photoIds,
          ((mapGet (mergedMap (PhotoCache.batchGet store iid photoIds now)
            (missingIds store iid photoIds now)
            (serverFetch remote iid (missingIds store iid photoIds now))) pid).isSome = true ↔
          ((lookupHit (PhotoCache.batchGet store iid photoIds now) pid).isSome = true ∨
            (remote (photoDataKey iid pid)).isSome = true)) := by
        intro pid hpid
        rw [mergedMap_key_iff, ← lookupHit_isSome_iff, mem_missingIds]
        constructor
        · rintro (h | ⟨⟨_, _⟩, hr⟩)
          · exact Or.inl h
          · exact Or.inr hr
        · rintro (h | hr)
          · exact Or.inl h
          · by_cases hhit :
              (lookupHit (PhotoCache.batchGet store iid photoIds now) pid).isSome = true
            · exact Or.inl hhit
            · exact Or.inr ⟨⟨hpid, hhit⟩, hr⟩
      refine ⟨_, hbranch, hiff, ?_⟩
      intro hall
      rw [hbranch]
      exact length_filterMap_of_isSome _ _ fun x hx => (hiff x hx).mpr (hall x hx)

/-- C4 counterexample.  With `a` and `b` cached and `c` absent from both
the cache and the remote store, `batchFetchPhotoData(["a","b","c"])`
returns the 2-element list `[a, b]` — not a 3-element result — because
absent items are dropped by `.filter(Boolean)`. -/
theorem c4_counterexample :
    (batchFetchPhotoData [⟨mkKey "i" "a", "da", 0, 2⟩, ⟨mkKey "i" "b", "db", 0, 2⟩]
        (fun _ => none) "i" ["a", "b", "c"] 0).photos
      = [⟨"a", "da"⟩, ⟨"b", "db"⟩] ∧
    ¬ (batchFetchPhotoData [⟨mkKey "i" "a", "da", 0, 2⟩, ⟨mkKey "i" "b", "db", 0, 2⟩]
        (fun _ => none) "i" ["a", "b", "c"] 0).photos.length = 3 := by
  exact ⟨by decide, by decide⟩

/-- Witness for `c4_order_preservation`: `a` cached, `c` served remotely —
both found, so a 2-element input yields a 2-element in-order result. -/
theorem c4_order_preservation_witness :
    (batchFetchPhotoData [⟨mkKey "i" "a", "da", 0, 2⟩]
      (fun k => if k == photoDataKey "i" "c" then some ⟨"c", "dc"⟩ else none)
      "i" ["a", "c"] 0).photos.length = 2 := by
  obtain ⟨f, hf, hiff, hlen⟩ := c4_order_preservation [⟨mkKey "i" "a", "da", 0, 2⟩]
    (fun k => if k == photoDataKey "i" "c" then some ⟨"c", "dc"⟩ else none)
    "i" ["a", "c"] 0
  apply hlen
  intro pid hpid
  rcases List.mem_cons.mp hpid with rfl | hpid'
  · exact Or.inl (by decide)
  · rcases List.mem_cons.mp hpid' with rfl | hpid''
    · exact Or.inr (by decide)
    · cases hpid''

/-! ## Debounced text edits (C6)

`handleTextUpdate` from the inspection edit page: every edit updates the
local state immediately, clears any pending timer for its field key
`itemId-field` (`clearTimeout`) and schedules a new 500 ms timer carrying
the edited value; a timer that elapses un-superseded issues the single
remote write (`handleItemUpdate`).  Timers live in a per-field-key map
(`debounceTimers.current`).  The model processes a time-ordered list of
edit events; a pending timer due strictly before an event's time fires
before that event is handled, and every timer still pending after the
last event eventually fires. -/

def DEBOUNCE_MS : Nat := 500

/-- The field key `itemId-field`. -/
def mkFieldKey (itemId field : String) : String := itemId ++ "-" ++ field

structure EditEvent where
  time : Nat
  fieldKey : String
  value : String
deriving DecidableEq, Repr

structure DebounceState where
  timers : List (String × Nat × String)
  writes : List (String × String)
deriving DecidableEq, Repr

/-- Fire every pending timer due strictly before `t`. -/
def fireDue (st : DebounceState) (t : Nat) : DebounceState :=
  { timers := st.timers.filter (fun x => !(decide (x.2.1 < t))),
    writes := st.writes
      ++ (st.timers.filter (fun x => decide (x.2.1 < t))).map (fun x => (x.1, x.2.2)) }

/-- One call of `handleTextUpdate`: clear the existing timer for the field
key and set a fresh one `DEBOUNCE_MS` out carrying the new value. -/
def handleTextUpdate (st : DebounceState) (e : EditEvent) : DebounceState :=
  let st1 := fireDue st e.time
  { timers := st1.timers.filter (fun x => x.1 != e.fieldKey)
      ++ [(e.fieldKey, e.time + DEBOUNCE_MS, e.value)],
    writes := st1.writes }

/-- Let every remaining timer elapse after the last event. -/
def flushAll (st : DebounceState) : List (String × String) :=
  st.writes ++ st.timers.map (fun x => (x.1, x.2.2))

/-- Remote writes produced by a burst of edits starting from an idle
editor. -/
def runEdits (edits : List EditEvent) : List (String × String) :=
  flushAll (edits.foldl handleTextUpdate ⟨[], []⟩)

theorem debounce_aux (k : String) (es : List EditEvent) (t0 : Nat) (v0 : String)
    (hall : ∀ e ∈ es, e.fieldKey = k)
    (hchain : es.Chain' (fun a b => a.time ≤ b.time ∧ b.time ≤ a.time + DEBOUNCE_MS))
    (hfirst : ∀ e, es.head? = some e → t0 ≤ e.time ∧ e.time ≤ t0 + DEBOUNCE_MS) :
    flushAll (es.foldl handleTextUpdate ⟨[(k, t0 + DEBOUNCE_MS, v0)], []⟩)
      = [(k, ((es.getLast?).map (·.value)).getD v0)] := by
  induction es generalizing t0 v0 with
  | nil => rfl
  | cons e rest ih =>
    have hke : e.fieldKey = k := hall e (List.mem_cons_self ..)
    have hbound := hfirst e rfl
    have hstep : handleTextUpdate ⟨[(k, t0 + DEBOUNCE_MS, v0)], []⟩ e
        = ⟨[(k, e.time + DEBOUNCE_MS, e.value)], []⟩ := by
      unfold handleTextUpdate fireDue
      have hnotdue : decide (t0 + DEBOUNCE_MS < e.time) = false := by
        simp only [decide_eq_false_iff_not, not_lt]
        exact hbound.2
      simp [hnotdue, hke]
    rw [List.foldl_cons, hstep]
    have hchain' := (List.chain'_cons'.mp hchain).2
    have hrel := (List.chain'_cons'.mp hchain).1
    rw [ih e.time e.value (fun x hx => hall x (List.mem_cons_of_mem _ hx)) hchain'
      (fun x hx => hrel x hx)]
    cases rest with
    | nil => rfl
    | cons b bs =>
      rw [List.getLast?_cons_cons]
      cases hlast : (b :: bs).getLast? with
      | none => simp at hlast
      | some z => rfl

/-- C6.  A burst of `N ≥ 1` edits to the same field key, each arriving
within 500 ms of the previous one, produces exactly one remote write,
carrying the value of the last edit (every new edit within the window
cancels the scheduled write and schedules a fresh one; timers are reset,
never stacked); and handling an edit to a distinct field key leaves this
key's pending timer exactly as mere passage of time would (per-key
independence of the timer map). -/
theorem c6_debounce_coalescing (k : String) (e0 : EditEvent) (es : List EditEvent)
    (hk0 : e0.fieldKey = k) (hall : ∀ e ∈ es, e.fieldKey = k)
    (hchain : (e0 :: es).Chain'
      (fun a b => a.time ≤ b.time ∧ b.time ≤ a.time + DEBOUNCE_MS)) :
    runEdits (e0 :: es)
      = [(k, (((e0 :: es).getLast?).map (·.value)).getD e0.value)] ∧
    (∀ st : DebounceState, ∀ e' : EditEvent, e'.fieldKey ≠ k →
      ((handleTextUpdate st e').timers.filter (fun x => x.1 == k))
        = ((fireDue st e'.time).timers.filter (fun x => x.1 == k))) := by
  constructor
  · unfold runEdits
    rw [List.foldl_cons]
    have hstep : handleTextUpdate ⟨[], []⟩ e0
        = ⟨[(k, e0.time + DEBOUNCE_MS, e0.value)], []⟩ := by
      unfold handleTextUpdate fireDue
      simp [hk0]
    rw [hstep]
    have hchain' := (List.chain'_cons'.mp hchain).2
    have hrel := (List.chain'_cons'.mp hchain).1
    rw [debounce_aux k es e0.time e0.value hall hchain' (fun x hx => hrel x hx)]
    cases es with
    | nil => rfl
    | cons b bs => rw [List.getLast?_cons_cons]
  · intro st e' hne
    unfold handleTextUpdate
    rw [List.filter_append]
    have hsingle : List.filter (fun x => x.1 == k)
        [(e'.fieldKey, e'.time + DEBOUNCE_MS, e'.value)] = [] := by
      simp [hne]
    rw [hsingle, List.append_nil, List.filter_filter]
    apply List.filter_congr
    intro x _
    by_cases hx : x.1 = k
    · have hxne : (x.1 != e'.fieldKey) = true := by
        rw [bne_iff_ne, hx]
        exact fun h => hne h.symm
      rw [hxne, Bool.and_true]
    · simp [hx]

/-- Witness for `c6_debounce_coalescing`: two edits to the same field
100 ms apart produce exactly one remote write carrying the second
value. -/
theorem c6_debounce_coalescing_witness :
    runEdits [⟨0, mkFieldKey "item1" "answer_text", "h"⟩,
        ⟨100, mkFieldKey "item1" "answer_text", "he"⟩]
      = [(mkFieldKey "item1" "answer_text", "he")] := by
  have h := (c6_debounce_coalescing (mkFieldKey "item1" "answer_text")
    ⟨0, mkFieldKey "item1" "answer_text", "h"⟩
    [⟨100, mkFieldKey "item1" "answer_text", "he"⟩]
    rfl (by simp) (by
      apply List.chain'_cons.mpr
      exact ⟨⟨by decide, by decide⟩, List.chain'_singleton _⟩)).1
  exact h.trans (by decide)

/-! ## Optimistic mutation rollback (C2)

The database-hooks mutations follow the react-query lifecycle: `onMutate`
runs first (`await queryClient.cancelQueries(...)` cancels in-flight
background refetches of the affected keys, then the snapshot is taken via
`getQueryData` / `getQueriesData`, then the optimistic `setQueryData`
runs), the `mutationFn` then performs the remote write; on failure
`onError` restores the snapshot and `mutateAsync` re-throws so the caller
sees the error.  `setQueryData` with an `undefined` value is a no-op.
Query data is `Option`-valued: `none` models `undefined` (query holds no
data).  The photo-list hooks (`useUploadPhoto`, `useDeletePhoto`,
`useUpdatePhotoCaption`) apply their optimistic transform to
`(old || [])` and guard the rollback with `if (context?.previousPhotos)`,
which skips the restore when the snapshot was `undefined` (a JS array,
even empty, is truthy; `undefined` is not).  The success-path
(`onSuccess` server-record replacement) is outside claim C2 and is not
modelled beyond the remote write succeeding. -/

structure PhotoRec where
  id : String
  caption : Option String
  storage_key : String
deriving DecidableEq, Repr

/-- State of the single affected reactive query
`['inspection-photos', inspection_id]`. -/
structure PhotosQueryState where
  data : Option (List PhotoRec)
  refetchInFlight : Bool
deriving DecidableEq, Repr

structure PhotosMutationRun where
  post : PhotosQueryState
  snapshot : Option (List PhotoRec)
  errorSurfaced : Bool
deriving DecidableEq, Repr

/-- Shared lifecycle of the photo-list mutations: cancel the in-flight
refetch of the key, snapshot `previousPhotos`, apply the optimistic
transform over `(old || [])`, run the remote write; on failure restore
the snapshot only when it was defined, and surface the error. -/
def runPhotosMutation (transform : List PhotoRec → List PhotoRec)
    (remoteOk : Bool) (q : PhotosQueryState) : PhotosMutationRun :=
  let previousPhotos := q.data
  let optimistic : Option (List PhotoRec) := some (transform (q.data.getD []))
  let restored : Option (List PhotoRec) :=
    match previousPhotos with
    | some ps => some ps
    | none => optimistic
  if remoteOk then
    { post := { data := optimistic, refetchInFlight := false },
      snapshot := previousPhotos, errorSurfaced := false }
  else
    { post := { data := restored, refetchInFlight := false },
      snapshot := previousPhotos, errorSurfaced := true }

/-- Optimistic transform of `useUpdatePhotoCaption`. -/
def captionTransform (id : String) (caption : String) (old : List PhotoRec) :
    List PhotoRec :=
  old.map (fun p => if p.id == id then { p with caption := some caption } else p)

/-- Optimistic transform of `useDeletePhoto`. -/
def deleteTransform (id : String) (old : List PhotoRec) : List PhotoRec :=
  old.filter (fun p => p.id != id)

/-- Optimistic transform of `useUploadPhoto` (append the optimistic photo
built around a locally generated id). -/
def uploadTransform (newPhoto : PhotoRec) (old : List PhotoRec) : List PhotoRec :=
  old ++ [newPhoto]

structure InspectionItem where
  id : String
  answer_text : Option String
  notes : Option String
deriving DecidableEq, Repr

inductive ItemField where
  | answer_text
  | notes
deriving DecidableEq, Repr

/-- `{ ...item, ...updates }` for the single-field updates issued by the
edit page (`{ [field]: value }`). -/
def applyItemPatch (field : ItemField) (value : String) (it : InspectionItem) :
    InspectionItem :=
  match field with
  | .answer_text => { it with answer_text := some value }
  | .notes => { it with notes := some value }

structure InspectionData where
  items : List InspectionItem
deriving DecidableEq, Repr

/-- The reactive query cache restricted to the `['inspection', id]`
family: each inspection id with its (possibly undefined) data, plus the
in-flight refetch flag for that key family. -/
structure InspectionQueryState where
  queries : List (String × Option InspectionData)
  refetchInFlight : Bool
deriving DecidableEq, Repr

/-- `queryClient.setQueryData(key, v)`: replaces the data of the query
with that key; passing `undefined` is a no-op. -/
def setQueryData (qs : List (String × Option InspectionData)) (k : String)
    (v : Option InspectionData) : List (String × Option InspectionData) :=
  match v with
  | none => qs
  | some d => qs.map (fun kv => if kv.1 == k then (kv.1, some d) else kv)

/-- The rollback loop of `useUpdateInspectionItem`:
`previousInspections.forEach(([key, data]) => setQueryData(key, data))`. -/
def restoreQueries (qs prev : List (String × Option InspectionData)) :
    List (String × Option InspectionData) :=
  prev.foldl (fun acc kv => setQueryData acc kv.1 kv.2) qs

structure ItemMutationRun where
  post : InspectionQueryState
  snapshot : List (String × Option InspectionData)
  errorSurfaced : Bool
deriving DecidableEq, Repr

/-- The optimistic `setQueriesData` transform of
`useUpdateInspectionItem` on a single query's data: a query without data
is left unchanged (`if (!old?.items) return old`); otherwise the matching
item is patched in place. -/
def patchQuery (id : String) (field : ItemField) (value : String) :
    Option InspectionData → Option InspectionData
  | none => none
  | some d => some ⟨d.items.map (fun it =>
      if it.id == id then applyItemPatch field value it else it)⟩

/-- `useUpdateInspectionItem`'s lifecycle: cancel every in-flight
`['inspection']` refetch, snapshot all matching queries
(`getQueriesData`), optimistically patch the item in every query that
holds data (`if (!old?.items) return old`), then on remote failure
restore each snapshot entry via `setQueryData` and surface the error. -/
def runItemMutation (id : String) (field : ItemField) (value : String)
    (remoteOk : Bool) (q : InspectionQueryState) : ItemMutationRun :=
  let previousInspections := q.queries
  let optimistic := q.queries.map (fun kv => (kv.1, patchQuery id field value kv.2))
  let restoredQs := restoreQueries optimistic previousInspections
  if remoteOk then
    { post := { queries := optimistic, refetchInFlight := false },
      snapshot := previousInspections, errorSurfaced := false }
  else
    { post := { queries := restoredQs, refetchInFlight := false },
      snapshot := previousInspections, errorSurfaced := true }

/-! Rollback exactness of the item mutation: folding the snapshot back
through `setQueryData` restores every query to its snapshot value. -/

/-- Effect of one snapshot entry on the final value of the query with key
`k`. -/
def overrideStep (k : String) (acc : Option InspectionData)
    (p : String × Option InspectionData) : Option InspectionData :=
  if p.1 == k then
    match p.2 with
    | none => acc
    | some d => some d
  else acc

def overrideFor (prev : List (String × Option InspectionData)) (k : String)
    (v : Option InspectionData) : Option InspectionData :=
  prev.foldl (overrideStep k) v

theorem overrideStep_none (k pk : String) (v : Option InspectionData) :
    overrideStep k v (pk, none) = v := by
  unfold overrideStep
  split <;> rfl

theorem restoreQueries_eq_map (prev qs : List (String × Option InspectionData)) :
    restoreQueries qs prev = qs.map (fun kv => (kv.1, overrideFor prev kv.1 kv.2)) := by
  induction prev generalizing qs with
  | nil =>
    show qs = _
    simp [overrideFor]
  | cons p rest ih =>
    obtain ⟨pk, pv⟩ := p
    have hfold : restoreQueries qs ((pk, pv) :: rest)
        = restoreQueries (setQueryData qs pk pv) rest := rfl
    rw [hfold, ih]
    cases pv with
    | none =>
      show qs.map _ = _
      apply List.map_congr_left
      intro kv _
      have : overrideFor ((pk, none) :: rest) kv.1 kv.2
          = overrideFor rest kv.1 (overrideStep kv.1 kv.2 (pk, none)) := rfl
      rw [this, overrideStep_none]
    | some d =>
      show (qs.map fun kv => if kv.1 == pk then (kv.1, some d) else kv).map _ = _
      rw [List.map_map]
      apply List.map_congr_left
      intro kv _
      have hcons : overrideFor ((pk, some d) :: rest) kv.1 kv.2
          = overrideFor rest kv.1 (overrideStep kv.1 kv.2 (pk, some d)) := rfl
      rw [hcons]
      by_cases hk : kv.1 = pk
      · have h1 : (kv.1 == pk) = true := by simp [hk]
        have h2 : overrideStep kv.1 kv.2 (pk, some d) = some d := by
          unfold overrideStep
          rw [if_pos (by simp [hk])]

        simp only [Function.comp_apply, h1, if_pos, h2]
      · have h1 : (kv.1 == pk) = false := by simp [hk]
        have h2 : overrideStep kv.1 kv.2 (pk, some d) = kv.2 := by
          unfold overrideStep
          rw [if_neg (by simp; exact fun h => hk h.symm)]
        simp only [Function.comp_apply, h1, Bool.false_eq_true, if_neg, not_false_iff, h2]

theorem overrideFor_not_mem (prev : List (String × Option InspectionData))
    (k : String) (v : Option InspectionData)
    (h : k ∉ prev.map (·.1)) : overrideFor prev k v = v := by
  induction prev generalizing v with
  | nil => rfl
  | cons p rest ih =>
    rw [List.map_cons, List.mem_cons] at h
    push_neg at h
    have hstep : overrideStep k v p = v := by
      unfold overrideStep
      rw [if_neg (by simp; exact fun hh => h.1 hh.symm)]
    show overrideFor rest k (overrideStep k v p) = v
    rw [hstep]
    exact ih v h.2

theorem overrideFor_of_nodup (prev : List (String × Option InspectionData))
    (kv : String × Option InspectionData) (hmem : kv ∈ prev)
    (hnodup : (prev.map (·.1)).Nodup) (v : Option InspectionData) :
    overrideFor prev kv.1 v = (match kv.2 with | none => v | some d => some d) := by
  induction prev generalizing v with
  | nil => cases hmem
  | cons p rest ih =>
    rw [List.map_cons, List.nodup_cons] at hnodup
    rcases List.mem_cons.mp hmem with rfl | hmem'
    · have hstep : overrideStep kv.1 v kv
          = (match kv.2 with | none => v | some d => some d) := by
        unfold overrideStep
        rw [if_pos (by simp)]
      show overrideFor rest kv.1 (overrideStep kv.1 v kv) = _
      rw [hstep]
      apply overrideFor_not_mem
      intro hk
      exact hnodup.1 hk
    · have hne : p.1 ≠ kv.1 := by
        intro hp
        apply hnodup.1
        rw [hp]
        exact List.mem_map_of_mem _ hmem'
      have hstep : overrideStep kv.1 v p = v := by
        unfold overrideStep
        rw [if_neg (by simp [hne])]
      show overrideFor rest kv.1 (overrideStep kv.1 v p) = _
      rw [hstep]
      exact ih hmem' hnodup.2 v

/-- Restoring the full snapshot on top of any key-preserving optimistic
rewrite of it yields the snapshot back exactly, provided the rewrite
leaves no-data queries without data and the query keys are distinct. -/
theorem restore_exact (prev : List (String × Option InspectionData))
    (g : Option InspectionData → Option InspectionData) (hg : g none = none)
    (hnodup : (prev.map (·.1)).Nodup) :
    restoreQueries (prev.map (fun kv => (kv.1, g kv.2))) prev = prev := by
  rw [restoreQueries_eq_map, List.map_map]
  have hpt : ∀ kv ∈ prev,
      ((fun kv => (kv.1, overrideFor prev kv.1 kv.2)) ∘
        (fun kv => (kv.1, g kv.2))) kv = id kv := by
    intro kv hmem
    have h := overrideFor_of_nodup prev kv hmem hnodup (g kv.2)
    simp only [Function.comp_apply, id_eq]
    cases hkv : kv.2 with
    | none =>
      rw [hkv] at h
      rw [h]
      show (kv.1, g none) = kv
      rw [hg]
      exact Prod.ext rfl hkv.symm
    | some d =>
      rw [hkv] at h
      rw [h]
      show (kv.1, some d) = kv
      exact Prod.ext rfl hkv.symm
  rw [List.map_congr_left hpt, List.map_id]

/-- C2 (amended).  For the modelled mutations — inspection-item update,
photo upload, photo delete, caption update — `onMutate` cancels the
in-flight background refetches of the affected query keys and captures
the snapshot before the optimistic transform runs, and a failed remote
write surfaces the error to the caller; the rollback restores every
touched query exactly to its snapshot, for the item mutation
unconditionally, and for the photo-list mutations whenever the affected
query held a defined result at mutation start. -/
theorem c2_rollback_exactness (id : String) (field : ItemField) (value : String)
    (q : InspectionQueryState) (hnodup : (q.queries.map (·.1)).Nodup)
    (qp : PhotosQueryState) (ps : List PhotoRec) (hdef : qp.data = some ps)
    (pid : String) (caption : String) (newPhoto : PhotoRec) :
    ((runItemMutation id field value false q).post.queries = q.queries ∧
      (runItemMutation id field value false q).post.refetchInFlight = false ∧
      (runItemMutation id field value false q).snapshot = q.queries ∧
      (runItemMutation id field value false q).errorSurfaced = true) ∧
    ((runPhotosMutation (captionTransform pid caption) false qp).post.data = some ps ∧
      (runPhotosMutation (captionTransform pid caption) false qp).post.refetchInFlight
        = false ∧
      (runPhotosMutation (captionTransform pid caption) false qp).snapshot = some ps ∧
      (runPhotosMutation (captionTransform pid caption) false qp).errorSurfaced = true) ∧
    ((runPhotosMutation (deleteTransform pid) false qp).post.data = some ps ∧
      (runPhotosMutation (deleteTransform pid) false qp).errorSurfaced = true) ∧
    ((runPhotosMutation (uploadTransform newPhoto) false qp).post.data = some ps ∧
      (runPhotosMutation (uploadTransform newPhoto) false qp).errorSurfaced = true) := by
  have hitem : (runItemMutation id field value false q).post.queries = q.queries := by
    show restoreQueries (q.queries.map fun kv => (kv.1, patchQuery id field value kv.2))
      q.queries = q.queries
    exact restore_exact q.queries (patchQuery id field value) rfl hnodup
  have hphoto : ∀ tf : List PhotoRec → List PhotoRec,
      (runPhotosMutation tf false qp).post.data = some ps := by
    intro tf
    show (match qp.data with
      | some ps => some ps
      | none => some (tf (qp.data.getD []))) = some ps
    rw [hdef]
  exact ⟨⟨hitem, rfl, rfl, rfl⟩,
    ⟨hphoto _, rfl, by show qp.data = some ps; exact hdef, rfl⟩,
    ⟨hphoto _, rfl⟩, ⟨hphoto _, rfl⟩⟩

/-- C2 counterexample.  `useUpdatePhotoCaption` on a query holding no data
(`undefined`): the optimistic transform writes `[]` into the query
(`(old || []).map(...)`), and on remote failure the rollback guard
`if (context?.previousPhotos)` skips the restore because the snapshot is
`undefined`, so the query ends at `[]` instead of its pre-mutation
`undefined` — not an exact restore. -/
theorem c2_counterexample :
    (runPhotosMutation (captionTransform "p" "hello") false
      ⟨none, true⟩).post.data = some [] ∧
    (⟨none, true⟩ : PhotosQueryState).data = none ∧
    some ([] : List PhotoRec) ≠ none := by
  exact ⟨rfl, rfl, by simp⟩

/-- Witness for `c2_rollback_exactness` at concrete inputs. -/
theorem c2_rollback_exactness_witness :
    (runItemMutation "item1" ItemField.answer_text "new" false
      ⟨[("i1", some ⟨[⟨"item1", none, none⟩]⟩), ("i2", none)], true⟩).post.queries
      = [("i1", some ⟨[⟨"item1", none, none⟩]⟩), ("i2", none)] ∧
    (runPhotosMutation (captionTransform "ph1" "cap") false
      ⟨some [⟨"ph1", none, "sk"⟩], true⟩).post.data = some [⟨"ph1", none, "sk"⟩] := by
  have h := c2_rollback_exactness "item1" ItemField.answer_text "new"
    ⟨[("i1", some ⟨[⟨"item1", none, none⟩]⟩), ("i2", none)], true⟩ (by decide)
    ⟨some [⟨"ph1", none, "sk"⟩], true⟩ [⟨"ph1", none, "sk"⟩] rfl
    "ph1" "cap" ⟨"x", none, "y"⟩
  exact ⟨h.1.1, h.2.1.1⟩

/-! ## Photo delete and the index invariant (C8)

The remote key-value state relevant to one inspection: the
`photo-index:iid` record (the list of photo metadata) and the
`photo-data:iid:photoId` records (one full record per photo id).
`useDeletePhoto`'s remote write removes the photo from the index
(`existingIndex.filter(p => p.id !== photo.id)`) and deletes the
`photo-data` record in the same mutation (`Promise.all`); the delete
counts as completed once both writes have landed. -/

structure RemotePhotoState where
  index : List Photo
  data : List (String × Photo)
deriving DecidableEq, Repr

/-- The completed remote write of `useDeletePhoto`: store the filtered
index and delete the `photo-data` key. -/
def deletePhotoRemote (st : RemotePhotoState) (pid : String) : RemotePhotoState :=
  { index := st.index.filter (fun p => p.id != pid),
    data := st.data.filter (fun x => x.1 != pid) }

/-- No index entry refers to a FullRecord id that does not exist. -/
def NoDangling (st : RemotePhotoState) : Prop :=
  ∀ p ∈ st.index, ∃ x ∈ st.data, x.1 = p.id

/-- C8.  A completed `useDeletePhoto` removes the photo's FullRecord and
its index entry in the same logical operation: afterwards the index has
no entry for the deleted id, its FullRecord is gone, and no surviving
index entry refers to a FullRecord that no longer exists. -/
theorem c8_delete_no_dangling (st : RemotePhotoState) (pid : String)
    (h : NoDangling st) :
    NoDangling (deletePhotoRemote st pid) ∧
    (∀ p ∈ (deletePhotoRemote st pid).index, p.id ≠ pid) ∧
    (∀ x ∈ (deletePhotoRemote st pid).data, x.1 ≠ pid) := by
  refine ⟨?_, ?_, ?_⟩
  · intro p hp
    have hp' := List.mem_filter.mp hp
    obtain ⟨x, hx, hxe⟩ := h p hp'.1
    refine ⟨x, List.mem_filter.mpr ⟨hx, ?_⟩, hxe⟩
    rw [bne_iff_ne, hxe]
    exact bne_iff_ne.mp hp'.2
  · intro p hp
    exact bne_iff_ne.mp (List.mem_filter.mp hp).2
  · intro x hx
    exact bne_iff_ne.mp (List.mem_filter.mp hx).2

/-- Witness for `c8_delete_no_dangling` at a concrete two-photo state. -/
theorem c8_delete_no_dangling_witness :
    NoDangling (deletePhotoRemote
      ⟨[⟨"p1", ""⟩, ⟨"p2", ""⟩],
        [("p1", ⟨"p1", "d1"⟩), ("p2", ⟨"p2", "d2"⟩)]⟩ "p1") ∧
    (∀ p ∈ (deletePhotoRemote
      ⟨[⟨"p1", ""⟩, ⟨"p2", ""⟩],
        [("p1", ⟨"p1", "d1"⟩), ("p2", ⟨"p2", "d2"⟩)]⟩ "p1").index, p.id ≠ "p1") := by
  have h := c8_delete_no_dangling
    ⟨[⟨"p1", ""⟩, ⟨"p2", ""⟩], [("p1", ⟨"p1", "d1"⟩), ("p2", ⟨"p2", "d2"⟩)]⟩
    "p1" (by unfold NoDangling; decide)
  exact ⟨h.1, h.2.1⟩

end Spec2Proof
